import Mathlib

/-!
Verification of the decibel-duel sound monitor (Arduino sketch family).

The development shallowly embeds the signal pipeline and the duel game
of `decibel-duel.ino` (three sketch variants) and proves the spec's
claims about them: the score table, the LED bar-graph invariant, the
nonlinear level scaler, the threshold categorizer, the rolling-average
ring buffer, the peak hold-and-decay tracker, and the randomized bot.

Modelling conventions:
- C++ `int` values are embedded as `ℤ`; array indices and sizes as `ℕ`
  or `Fin n`; `unsigned long` timestamps as `ℕ`, with the unsigned
  32-bit subtraction `a - b` embedded explicitly mod `2^32` (`wrapSub`).
- C++ integer division truncates toward zero, which is `Int.tdiv`.
- The float expression `pow(adjusted / float(MAX_ADJUSTED_VALUE), 0.8f) * 100`
  followed by `static_cast<int>` (truncation toward zero, i.e. floor of a
  nonnegative value) is embedded in exact real arithmetic via its integer
  characterization: `n ≤ 100 * (a / M)^(4/5)` iff `n^5 * M^4 ≤ 100^5 * a^4`
  (both sides nonnegative, fifth powers are monotone), so the floor is the
  greatest `n` satisfying that inequality.
- Calls to `digitalWrite` are embedded as updates to a `ℕ → Bool` pin map
  plus an explicit write trace, so "performs no output writes" is statable.
- `random(lo, hi)` (Arduino: `lo + random() % (hi - lo)`, upper bound
  exclusive) is embedded with the raw random draw as an oracle argument.
-/

namespace DecibelDuel

/-- The five ordered sound categories, as declared by `enum class
SoundCategory { Silent, Quiet, Moderate, Loud, VeryLoud }`. -/
inductive SoundCategory where
  | Silent
  | Quiet
  | Moderate
  | Loud
  | VeryLoud
deriving DecidableEq, Repr, Fintype

/-- `SoundMonitor::getCategoryValue`: the 0–4 ordinal of a category
(the C++ `switch` over the five enumerators, with `default: return 0`,
which is unreachable for the closed enumeration). -/
def getCategoryValue : SoundCategory → ℤ
  | .Silent => 0
  | .Quiet => 1
  | .Moderate => 2
  | .Loud => 3
  | .VeryLoud => 4

/-- `abs(userCategoryValue - botCategoryValue)` from `SoundMonitor::update`. -/
def categoryDifference (user bot : SoundCategory) : ℤ :=
  |getCategoryValue user - getCategoryValue bot|

/-- The `switch (categoryDifference)` of `SoundMonitor::update` computing
`scoreIncrement`, including its (unreachable) `default: scoreIncrement = 0`. -/
def scoreIncrementOfDifference (d : ℤ) : ℤ :=
  if d = 0 then 5
  else if d = 1 then 3
  else if d = 2 then 2
  else if d = 3 then 1
  else if d = 4 then 1
  else 0

/-- `score += scoreIncrement` at the end of a `SoundMonitor::update` tick. -/
def scoreAfterUpdate (user bot : SoundCategory) (score : ℤ) : ℤ :=
  score + scoreIncrementOfDifference (categoryDifference user bot)

/-- `SoundMonitor::categorizeSoundLevel`, with the four `Threshold`
enumerators left as parameters (`{20,40,60,80}` in the single-player
nonlinear sketch, `{10,30,60,99}` and `{25,50,75,99}` in the others). -/
def categorizeSoundLevel (t1 t2 t3 t4 : ℤ) (soundLevel : ℤ) : SoundCategory :=
  if soundLevel ≤ t1 then .Silent
  else if soundLevel ≤ t2 then .Quiet
  else if soundLevel ≤ t3 then .Moderate
  else if soundLevel ≤ t4 then .Loud
  else .VeryLoud

/-- The ascending threshold table `{(Silent, t1), (Quiet, t2), (Moderate, t3),
(Loud, t4)}` (VeryLoud has no upper threshold). -/
def thresholdPairs (t1 t2 t3 t4 : ℤ) : List (SoundCategory × ℤ) :=
  [(.Silent, t1), (.Quiet, t2), (.Moderate, t3), (.Loud, t4)]

/-- The categorizer as the spec words it: return the first category in
ascending order whose threshold is `≥ level`, else VeryLoud.  Stated as a
second definition only to be compared with `categorizeSoundLevel`. -/
def categorizeFirstGE (t1 t2 t3 t4 : ℤ) (level : ℤ) : SoundCategory :=
  ((((thresholdPairs t1 t2 t3 t4).find? fun p => p.2 ≥ level).map Prod.fst).getD
    .VeryLoud)

/-- C1: for every pair of sound categories (human, opponent), the per-tick
score increment is the function of the ordinal distance
`d = |index(human) - index(opponent)|` given by the table
`d=0 → 5, d=1 → 3, d=2 → 2, d=3 → 1, d=4 → 1`, and the increment is added
to the running score. -/
theorem C1_score_increment_table :
    ∀ (user bot : SoundCategory) (score : ℤ),
      scoreAfterUpdate user bot score =
        score +
          (match (categoryDifference user bot).toNat with
            | 0 => 5
            | 1 => 3
            | 2 => 2
            | 3 => 1
            | 4 => 1
            | _ => 0) := by
  intro user bot score
  cases user <;> cases bot <;> rfl

/-- C10: ordinals are in [0,4], hence the category difference is in [0,4],
the default branch of the score switch (increment 0) is unreachable, every
tick adds between 1 and 5 to the score, and the cumulative score strictly
increases and stays nonnegative. -/
theorem C10_ordinal_range_and_score_safety :
    ∀ (user bot : SoundCategory),
      (0 ≤ getCategoryValue user ∧ getCategoryValue user ≤ 4)
      ∧ (0 ≤ categoryDifference user bot ∧ categoryDifference user bot ≤ 4)
      ∧ (1 ≤ scoreIncrementOfDifference (categoryDifference user bot)
          ∧ scoreIncrementOfDifference (categoryDifference user bot) ≤ 5)
      ∧ ∀ score : ℤ,
          score < scoreAfterUpdate user bot score
          ∧ (0 ≤ score → 0 ≤ scoreAfterUpdate user bot score) := by
  intro user bot
  refine ⟨?_, ?_, ?_, ?_⟩
  · cases user <;> decide
  · cases user <;> cases bot <;> decide
  · cases user <;> cases bot <;> decide
  · intro score
    have h1 : 1 ≤ scoreIncrementOfDifference (categoryDifference user bot) := by
      cases user <;> cases bot <;> decide
    unfold scoreAfterUpdate
    omega

/-- Witness for C10 at the concrete pair (Silent, VeryLoud) and score 0. -/
theorem C10_ordinal_range_and_score_safety_witness :
    (0 : ℤ) < scoreAfterUpdate SoundCategory.Silent SoundCategory.VeryLoud 0
    ∧ (0 : ℤ) ≤ scoreAfterUpdate SoundCategory.Silent SoundCategory.VeryLoud 0 :=
  ⟨((C10_ordinal_range_and_score_safety SoundCategory.Silent
      SoundCategory.VeryLoud).2.2.2 0).1,
   ((C10_ordinal_range_and_score_safety SoundCategory.Silent
      SoundCategory.VeryLoud).2.2.2 0).2 (by decide)⟩

/-- C4: for every level in [0,100] the categorizer returns the first
category in ascending order whose threshold is `≥ level` (a level exactly
equal to a threshold falls into the lower category), else VeryLoud; with
threshold table {20,40,60,80}, level 20 maps to Silent, level 21 to Quiet,
and level 100 to VeryLoud. -/
theorem C4_categorizer_inclusive_boundary :
    (∀ (t1 t2 t3 t4 level : ℤ), 0 ≤ level → level ≤ 100 →
      categorizeSoundLevel t1 t2 t3 t4 level = categorizeFirstGE t1 t2 t3 t4 level)
    ∧ categorizeSoundLevel 20 40 60 80 20 = SoundCategory.Silent
    ∧ categorizeSoundLevel 20 40 60 80 21 = SoundCategory.Quiet
    ∧ categorizeSoundLevel 20 40 60 80 100 = SoundCategory.VeryLoud := by
  refine ⟨?_, by decide, by decide, by decide⟩
  intro t1 t2 t3 t4 level _ _
  by_cases h1 : level ≤ t1 <;> by_cases h2 : level ≤ t2 <;>
    by_cases h3 : level ≤ t3 <;> by_cases h4 : level ≤ t4 <;>
    simp [categorizeSoundLevel, categorizeFirstGE, thresholdPairs, List.find?,
      h1, h2, h3, h4]

/-- Witness for C4 at thresholds {20,40,60,80} and level 20. -/
theorem C4_categorizer_inclusive_boundary_witness :
    categorizeSoundLevel 20 40 60 80 20 = categorizeFirstGE 20 40 60 80 20 :=
  C4_categorizer_inclusive_boundary.1 20 40 60 80 20 (by decide) (by decide)

/-- State of the rolling-average ring buffer of `SoundMonitor`: the field
declarations `int readings[AVERAGE_WINDOW] = {0}; int readIndex = 0;
int total = 0;` with the window size `N` left as a parameter
(`AVERAGE_WINDOW` is 7 or 10 depending on the sketch variant). -/
structure Smoother (N : ℕ) where
  readings : Fin N → ℤ
  readIndex : Fin N
  total : ℤ

/-- `SoundMonitor::addReading`: subtract the slot about to be overwritten
from the running sum, store the new value, add it, advance the index
modulo `AVERAGE_WINDOW`. -/
def addReading {N : ℕ} (s : Smoother N) (value : ℤ) : Smoother N :=
  { readings := Function.update s.readings s.readIndex value
    readIndex := ⟨((s.readIndex : ℕ) + 1) % N,
      Nat.mod_lt _ (Nat.zero_lt_of_lt s.readIndex.isLt)⟩
    total := s.total - s.readings s.readIndex + value }

/-- `SoundMonitor::getAverage`: `total / AVERAGE_WINDOW` with C++ integer
division (truncation toward zero, `Int.tdiv`). -/
def getAverage {N : ℕ} (s : Smoother N) : ℤ :=
  Int.tdiv s.total (N : ℤ)

/-- The initial all-zero buffer state (`{0}` initializers). -/
def initSmoother (n : ℕ) : Smoother (n + 1) :=
  { readings := fun _ => 0, readIndex := ⟨0, n.succ_pos⟩, total := 0 }

/-- A sequence of `addReading` calls, oldest first. -/
def addReadings {N : ℕ} (s : Smoother N) (l : List ℤ) : Smoother N :=
  l.foldl addReading s

/-- The ring-buffer invariant: the running sum equals the exact sum of the
buffer's current contents. -/
def sumInvariant {N : ℕ} (s : Smoother N) : Prop :=
  s.total = ∑ i, s.readings i

theorem addReading_sumInvariant {N : ℕ} (s : Smoother N) (v : ℤ)
    (h : sumInvariant s) : sumInvariant (addReading s v) := by
  unfold sumInvariant addReading at *
  simp only
  rw [Finset.sum_update_of_mem (Finset.mem_univ s.readIndex),
    Finset.sdiff_singleton_eq_erase,
    Finset.sum_erase_eq_sub (Finset.mem_univ s.readIndex), h]
  ring

theorem addReadings_sumInvariant {N : ℕ} (l : List ℤ) (s : Smoother N)
    (h : sumInvariant s) : sumInvariant (addReadings s l) := by
  induction l generalizing s with
  | nil => exact h
  | cons v l ih => exact ih (addReading s v) (addReading_sumInvariant s v h)

theorem addReadings_replicate_untouched {N : ℕ} :
    ∀ (k : ℕ) (s : Smoother N) (v : ℤ) (i : Fin N),
      (¬ ∃ j, j < k ∧ ((s.readIndex : ℕ) + j) % N = (i : ℕ)) →
      (addReadings s (List.replicate k v)).readings i = s.readings i := by
  intro k
  induction k with
  | zero => intro s v i _; rfl
  | succ k ih =>
    intro s v i h
    have hi0 : (i : ℕ) ≠ (s.readIndex : ℕ) := by
      intro hc
      exact h ⟨0, Nat.succ_pos k, by
        simpa [Nat.mod_eq_of_lt s.readIndex.isLt] using hc.symm⟩
    have hie : i ≠ s.readIndex := fun hc => hi0 (congrArg Fin.val hc)
    have hstep : addReadings s (List.replicate (k + 1) v)
        = addReadings (addReading s v) (List.replicate k v) := rfl
    rw [hstep, ih (addReading s v) v i ?hnot]
    case hnot =>
      rintro ⟨j, hj, hmod⟩
      apply h
      refine ⟨j + 1, Nat.succ_lt_succ hj, ?_⟩
      have hm : (((s.readIndex : ℕ) + 1) % N + j) % N
          = ((s.readIndex : ℕ) + 1 + j) % N := Nat.mod_add_mod _ _ _
      have hmod' : (((s.readIndex : ℕ) + 1) % N + j) % N = (i : ℕ) := hmod
      rw [hm] at hmod'
      rw [show (s.readIndex : ℕ) + (j + 1) = (s.readIndex : ℕ) + 1 + j by omega]
      exact hmod'
    show Function.update s.readings s.readIndex v i = s.readings i
    exact Function.update_noteq hie v s.readings

theorem addReadings_replicate_hit {N : ℕ} :
    ∀ (k : ℕ) (s : Smoother N) (v : ℤ) (i : Fin N),
      (∃ j, j < k ∧ ((s.readIndex : ℕ) + j) % N = (i : ℕ)) →
      (addReadings s (List.replicate k v)).readings i = v := by
  intro k
  induction k with
  | zero => rintro s v i ⟨j, hj, _⟩; omega
  | succ k ih =>
    rintro s v i ⟨j, hj, hmod⟩
    have hstep : addReadings s (List.replicate (k + 1) v)
        = addReadings (addReading s v) (List.replicate k v) := rfl
    rw [hstep]
    cases j with
    | zero =>
      have hi : (i : ℕ) = (s.readIndex : ℕ) := by
        simpa [Nat.mod_eq_of_lt s.readIndex.isLt] using hmod.symm
      have hie : i = s.readIndex := Fin.ext hi
      by_cases hh : ∃ j', j' < k
          ∧ (((addReading s v).readIndex : ℕ) + j') % N = (i : ℕ)
      · exact ih (addReading s v) v i hh
      · rw [addReadings_replicate_untouched k (addReading s v) v i hh]
        show Function.update s.readings s.readIndex v i = v
        rw [hie]
        exact Function.update_same s.readIndex v s.readings
    | succ j' =>
      apply ih (addReading s v) v i
      refine ⟨j', Nat.lt_of_succ_lt_succ hj, ?_⟩
      show (((s.readIndex : ℕ) + 1) % N + j') % N = (i : ℕ)
      rw [Nat.mod_add_mod]
      rw [show (s.readIndex : ℕ) + 1 + j' = (s.readIndex : ℕ) + (j' + 1) by omega]
      exact hmod

theorem exists_ring_hit (N start i : ℕ) (hstart : start < N) (hi : i < N) :
    ∃ j, j < N ∧ (start + j) % N = i := by
  by_cases h : start ≤ i
  · refine ⟨i - start, by omega, ?_⟩
    rw [Nat.add_sub_cancel' h]
    exact Nat.mod_eq_of_lt hi
  · refine ⟨N + i - start, by omega, ?_⟩
    rw [show start + (N + i - start) = N + i by omega, Nat.add_mod_left]
    exact Nat.mod_eq_of_lt hi

theorem addReadings_replicate_full {N : ℕ} (s : Smoother N) (v : ℤ)
    (i : Fin N) : (addReadings s (List.replicate N v)).readings i = v :=
  addReadings_replicate_hit N s v i
    (exists_ring_hit N _ _ s.readIndex.isLt i.isLt)

/-- C6: after every insert the running sum equals the exact sum of the
buffer's current entries and the slot index advances modulo N, and the sum
invariant holds after every sequence of inserts from the initial all-zero
state. -/
theorem C6_ring_buffer_invariant :
    (∀ (N : ℕ) (s : Smoother N) (value : ℤ),
      ((addReading s value).readIndex : ℕ) = ((s.readIndex : ℕ) + 1) % N
      ∧ (sumInvariant s → sumInvariant (addReading s value)))
    ∧ ∀ (n : ℕ) (l : List ℤ), sumInvariant (addReadings (initSmoother n) l) := by
  constructor
  · intro N s value
    exact ⟨rfl, addReading_sumInvariant s value⟩
  · intro n l
    apply addReadings_sumInvariant
    simp [sumInvariant, initSmoother]

/-- Witness for C6: one concrete insert into the all-zero 10-slot buffer. -/
theorem C6_ring_buffer_invariant_witness :
    sumInvariant (addReading (initSmoother 9) 5) :=
  (C6_ring_buffer_invariant.1 10 (initSmoother 9) 5).2
    (by simp [sumInvariant, initSmoother])

/-- C5: for every integer value and every buffer state satisfying the sum
invariant (which holds in every reachable state, by C6), inserting the
value for N consecutive ticks makes the truncating-division average return
exactly that value. -/
theorem C5_smoothing_convergence :
    ∀ (n : ℕ) (s : Smoother (n + 1)), sumInvariant s →
      ∀ value : ℤ,
        getAverage (addReadings s (List.replicate (n + 1) value)) = value := by
  intro n s hs value
  have hinv := addReadings_sumInvariant (List.replicate (n + 1) value) s hs
  unfold sumInvariant at hinv
  unfold getAverage
  rw [hinv,
    Finset.sum_congr rfl
      (fun i _ => addReadings_replicate_full s value i),
    Finset.sum_const, Finset.card_univ, Fintype.card_fin, nsmul_eq_mul]
  exact Int.mul_tdiv_cancel_left value (by exact_mod_cast Nat.succ_ne_zero n)

/-- Witness for C5: ten inserts of 42 into the all-zero 10-slot buffer. -/
theorem C5_smoothing_convergence_witness :
    getAverage (addReadings (initSmoother 9) (List.replicate 10 42)) = 42 :=
  C5_smoothing_convergence 9 (initSmoother 9)
    (by simp [sumInvariant, initSmoother]) 42

/-- Arduino's `constrain(amt, low, high)` macro:
`(amt < low) ? low : ((amt > high) ? high : amt)`. -/
def constrain (amt low high : ℤ) : ℤ :=
  if amt < low then low else if high < amt then high else amt

/-- The integer value of `pow(adjusted / float(M), 0.8f) * 100` truncated
toward zero, in exact real arithmetic: the operand is nonnegative, so
truncation is the floor, and `n ≤ 100 * (a / M)^(4/5)` holds iff
`n^5 * M^4 ≤ 100^5 * a^4` (raise both nonnegative sides to the 5th power).
The floor is therefore the greatest such `n`; the search is capped at 101,
which changes nothing after the `constrain` to [0,100] that always
follows. -/
def pow45floor (a M : ℕ) : ℕ :=
  Nat.findGreatest (fun n => n ^ 5 * M ^ 4 ≤ 100 ^ 5 * a ^ 4) 101

/-- `SoundMonitor::calculateSoundLevel` with `BASELINE_VALUE` and
`MAX_ADJUSTED_VALUE` as parameters: noise-floor subtraction
`max(sensorValue - B, 0)`, the nonlinear 0.8-power scaling truncated to
int, then `constrain(_, 0, 100)`. -/
def calculateSoundLevel (B M : ℕ) (sensorValue : ℤ) : ℤ :=
  constrain ((pow45floor ((sensorValue - (B : ℤ)).toNat) M : ℕ) : ℤ) 0 100

/-- Round-to-nearest variant of `pow45floor`, following the spec's words
`level = round(normalized^0.8 * 100)`: `round(y) = floor(y + 1/2)` is the
greatest `n` with `n - 1/2 ≤ y`, i.e. `(2n-1)^5 * M^4 ≤ 32 * 100^5 * a^4`.
Stated only to be compared with the code's truncation. -/
def pow45round (a M : ℕ) : ℕ :=
  Nat.findGreatest (fun n => (2 * n - 1) ^ 5 * M ^ 4 ≤ 32 * 100 ^ 5 * a ^ 4) 101

/-- The level scaler as the spec words it (round to nearest, then clamp). -/
def calculateSoundLevelRounded (B M : ℕ) (sensorValue : ℤ) : ℤ :=
  constrain ((pow45round ((sensorValue - (B : ℤ)).toNat) M : ℕ) : ℤ) 0 100

theorem findGreatest_self_spec (P : ℕ → Prop) [DecidablePred P] (n : ℕ)
    (h : Nat.findGreatest P n ≠ 0) : P (Nat.findGreatest P n) :=
  Nat.findGreatest_of_ne_zero rfl h

theorem findGreatest_not_above (P : ℕ → Prop) [DecidablePred P] (n k : ℕ)
    (h1 : Nat.findGreatest P n < k) (h2 : k ≤ n) : ¬ P k :=
  Nat.findGreatest_is_greatest h1 h2

theorem pow45floor_le (a M : ℕ) :
    (pow45floor a M) ^ 5 * M ^ 4 ≤ 100 ^ 5 * a ^ 4 := by
  rcases Nat.eq_zero_or_pos (pow45floor a M) with h | h
  · rw [h]
    simp
  · exact findGreatest_self_spec
      (fun n => n ^ 5 * M ^ 4 ≤ 100 ^ 5 * a ^ 4) 101 h.ne'

theorem pow45floor_lt (a M : ℕ) (h : pow45floor a M < 101) :
    100 ^ 5 * a ^ 4 < (pow45floor a M + 1) ^ 5 * M ^ 4 := by
  have hng := findGreatest_not_above
    (fun n => n ^ 5 * M ^ 4 ≤ 100 ^ 5 * a ^ 4) 101 (pow45floor a M + 1)
    (Nat.lt_succ_self _) (by omega)
  exact not_le.mp (by simpa using hng)

theorem pow45floor_zero (M : ℕ) (hM : 0 < M) : pow45floor 0 M = 0 := by
  unfold pow45floor
  rw [Nat.findGreatest_eq_zero_iff]
  intro n hn _
  have h1 : 0 < n ^ 5 * M ^ 4 := Nat.mul_pos (pow_pos hn 5) (pow_pos hM 4)
  simp only [not_le]
  calc 100 ^ 5 * 0 ^ 4 = 0 := by norm_num
  _ < n ^ 5 * M ^ 4 := h1

/-- C3 counterexample: with baseline 585 and maxAdjustedValue 300 (the
duel sketch), raw sensor value 610 gives adjusted 25, where the exact
scaled value is `100 * (25/300)^0.8 = 13.697…`; the code's truncation
yields 13, while the spec's round-to-nearest yields 14. -/
theorem C3_rounding_mode_counterexample :
    calculateSoundLevel 585 300 610 ≠ calculateSoundLevelRounded 585 300 610 := by
  decide

/-- C3 (amended): in the nonlinear-response variant the level before
clamping is `normalized^0.8 * 100` truncated toward zero (the floor of
that nonnegative value), not rounded to nearest: the computed integer `n`
satisfies `n ≤ 100 * normalized^0.8 < n + 1`, stated over the integers by
raising to the 5th power. -/
theorem C3_scaler_truncates_toward_zero :
    ∀ (B M : ℕ) (v : ℤ), 0 < M →
      calculateSoundLevel B M v
        = constrain ((pow45floor ((v - (B : ℤ)).toNat) M : ℕ) : ℤ) 0 100
      ∧ (pow45floor ((v - (B : ℤ)).toNat) M) ^ 5 * M ^ 4
          ≤ 100 ^ 5 * ((v - (B : ℤ)).toNat) ^ 4
      ∧ (pow45floor ((v - (B : ℤ)).toNat) M < 101 →
          100 ^ 5 * ((v - (B : ℤ)).toNat) ^ 4
            < (pow45floor ((v - (B : ℤ)).toNat) M + 1) ^ 5 * M ^ 4) := by
  intro B M v _
  exact ⟨rfl, pow45floor_le _ M, pow45floor_lt _ M⟩

/-- Witness for C3 (amended) at baseline 585, maxAdjustedValue 300,
raw value 610 (adjusted 25, floor 13). -/
theorem C3_scaler_truncates_toward_zero_witness :
    (pow45floor ((610 - (585 : ℕ) : ℤ)).toNat 300) ^ 5 * 300 ^ 4
        ≤ 100 ^ 5 * (((610 - (585 : ℕ) : ℤ)).toNat) ^ 4
    ∧ 100 ^ 5 * (((610 - (585 : ℕ) : ℤ)).toNat) ^ 4
        < ((pow45floor ((610 - (585 : ℕ) : ℤ)).toNat 300) + 1) ^ 5 * 300 ^ 4 :=
  ⟨(C3_scaler_truncates_toward_zero 585 300 610 (by norm_num)).2.1,
   (C3_scaler_truncates_toward_zero 585 300 610 (by norm_num)).2.2
     (by decide)⟩

/-- C9: for every integer sensor value the computed level lies in [0,100];
with baseline 590 and maxAdjustedValue 300 (the single-player sketch), raw
890 yields exactly 100, and every raw value at most 590 yields exactly 0. -/
theorem C9_scaling_boundaries :
    (∀ v : ℤ, 0 ≤ calculateSoundLevel 590 300 v
      ∧ calculateSoundLevel 590 300 v ≤ 100)
    ∧ calculateSoundLevel 590 300 890 = 100
    ∧ ∀ v : ℤ, v ≤ 590 → calculateSoundLevel 590 300 v = 0 := by
  refine ⟨?_, by decide, ?_⟩
  · intro v
    unfold calculateSoundLevel constrain
    split_ifs <;> omega
  · intro v hv
    have ha : (v - (590 : ℕ) : ℤ).toNat = 0 := by omega
    unfold calculateSoundLevel
    rw [ha, pow45floor_zero 300 (by norm_num)]
    rfl

/-- Witness for C9 at the concrete raw value 300 (at most the baseline). -/
theorem C9_scaling_boundaries_witness :
    calculateSoundLevel 590 300 300 = 0 :=
  C9_scaling_boundaries.2.2 300 (by norm_num)

/-- Modulus of the 32-bit `unsigned long` type (2^32). -/
def ULONG_MOD : ℕ := 4294967296

/-- Unsigned 32-bit subtraction `a - b` of `unsigned long` millisecond
timestamps, as produced by `millis()` arithmetic. -/
def wrapSub (a b : ℕ) : ℕ :=
  (a % ULONG_MOD + (ULONG_MOD - b % ULONG_MOD)) % ULONG_MOD

theorem wrapSub_eq (a b : ℕ) (h1 : b ≤ a) (h2 : a < ULONG_MOD) :
    wrapSub a b = a - b := by
  have hb : b < ULONG_MOD := lt_of_le_of_lt h1 h2
  unfold wrapSub ULONG_MOD at *
  omega

/-- `Config::PEAK_HOLD_TIME_MS`. -/
def PEAK_HOLD_TIME_MS : ℕ := 1000

/-- Peak-tracker state of `SoundMonitor`: `int peakValue = 0;
unsigned long lastPeakTime = 0;`. -/
structure PeakState where
  peakValue : ℤ
  lastPeakTime : ℕ
deriving DecidableEq, Repr

/-- `peakValue *= Config::PEAK_DECAY_RATE`: the int is multiplied by the
float 0.95 and the product truncated toward zero on assignment, embedded
as `(19 * p).tdiv 20`.  (For the reachable peak values 0–100 the float
product `p * 0.95f` rounds to within 2 microunits of the exact value
`19p/20`, whose fractional part is either 0 or at least 1/20, so the
truncated result equals the exact one.) -/
def decayPeak (p : ℤ) : ℤ :=
  Int.tdiv (19 * p) 20

/-- `SoundMonitor::updatePeakValue`: rise instantly on a new maximum,
otherwise decay once the hold time has elapsed, otherwise hold. -/
def updatePeakValue (s : PeakState) (soundLevel : ℤ) (currentTime : ℕ) :
    PeakState :=
  if soundLevel > s.peakValue then
    { peakValue := soundLevel, lastPeakTime := currentTime }
  else if wrapSub currentTime s.lastPeakTime > PEAK_HOLD_TIME_MS then
    { s with peakValue := decayPeak s.peakValue }
  else s

/-- C7: with non-decreasing in-range timestamps, a level above the stored
peak sets the peak to that level and the timestamp to now; with no new
maximum the peak is unchanged (hence non-decreasing) while the hold time
has not elapsed, and once it has elapsed the tick multiplies the peak by
0.95 with truncation, which never increases a nonnegative peak; the peak
also stays nonnegative. -/
theorem C7_peak_hold_then_decay :
    ∀ (s : PeakState) (level : ℤ) (now : ℕ),
      (level > s.peakValue → updatePeakValue s level now = ⟨level, now⟩)
      ∧ (level ≤ s.peakValue → s.lastPeakTime ≤ now → now < ULONG_MOD →
          now - s.lastPeakTime ≤ PEAK_HOLD_TIME_MS →
          updatePeakValue s level now = s)
      ∧ (level ≤ s.peakValue → s.lastPeakTime ≤ now → now < ULONG_MOD →
          PEAK_HOLD_TIME_MS < now - s.lastPeakTime →
          (updatePeakValue s level now).peakValue = decayPeak s.peakValue
          ∧ (0 ≤ s.peakValue →
              (updatePeakValue s level now).peakValue ≤ s.peakValue))
      ∧ (0 ≤ s.peakValue → 0 ≤ (updatePeakValue s level now).peakValue) := by
  intro s level now
  refine ⟨?_, ?_, ?_, ?_⟩
  · intro h
    simp [updatePeakValue, h]
  · intro h1 h2 h3 h4
    unfold updatePeakValue
    rw [wrapSub_eq now s.lastPeakTime h2 h3, if_neg (not_lt.mpr h1),
      if_neg (by omega)]
  · intro h1 h2 h3 h4
    unfold updatePeakValue
    rw [wrapSub_eq now s.lastPeakTime h2 h3, if_neg (not_lt.mpr h1),
      if_pos (by omega)]
    refine ⟨rfl, fun hp => ?_⟩
    show decayPeak s.peakValue ≤ s.peakValue
    unfold decayPeak
    rw [Int.tdiv_eq_ediv (by linarith) (by norm_num)]
    omega
  · intro hp
    unfold updatePeakValue
    split_ifs with h1 h2
    · simp only
      linarith
    · show 0 ≤ decayPeak s.peakValue
      exact Int.tdiv_nonneg (by linarith) (by norm_num)
    · exact hp

/-- Witness for C7: a new maximum 50 at time 10 from the initial state. -/
theorem C7_peak_hold_then_decay_witness :
    updatePeakValue ⟨0, 0⟩ 50 10 = ⟨50, 10⟩ :=
  (C7_peak_hold_then_decay ⟨0, 0⟩ 50 10).1 (by decide)

/-- The 0–4 ordinal position of a category (the order of the enumerators). -/
def categoryIndex : SoundCategory → ℕ
  | .Silent => 0
  | .Quiet => 1
  | .Moderate => 2
  | .Loud => 3
  | .VeryLoud => 4

/-- `enum class UserLEDPin { SILENT = 7, QUIET = 8, MODERATE = 9,
LOUD = 10, VERY_LOUD = 11 }`, via `SoundMonitor::getCategoryLEDPin`. -/
def userLEDPin : SoundCategory → ℕ
  | .Silent => 7
  | .Quiet => 8
  | .Moderate => 9
  | .Loud => 10
  | .VeryLoud => 11

/-- `enum class BotLEDPin { SILENT = 2, QUIET = 3, MODERATE = 4, LOUD = 5,
VERY_LOUD = 6 }`, via `BotLEDController::getCategoryLEDPin`. -/
def botLEDPin : SoundCategory → ℕ
  | .Silent => 2
  | .Quiet => 3
  | .Moderate => 4
  | .Loud => 5
  | .VeryLoud => 6

theorem userLEDPin_base : ∀ c, userLEDPin c = 7 + categoryIndex c := by
  intro c
  cases c <;> rfl

theorem botLEDPin_base : ∀ c, botLEDPin c = 2 + categoryIndex c := by
  intro c
  cases c <;> rfl

/-- One actor's indicator: the stored `currentCategory` field together
with the on/off state of the digital output pins. -/
structure IndicatorState where
  currentCategory : SoundCategory
  lit : ℕ → Bool

/-- A sequence of `digitalWrite(pin, value)` calls applied in order. -/
def applyWrites (lit : ℕ → Bool) (ws : List (ℕ × Bool)) : ℕ → Bool :=
  ws.foldl (fun f w => Function.update f w.1 w.2) lit

/-- The writes issued by `for (int i = lo; i < lo + n; i++)
digitalWrite(i, v)`. -/
def rangeWrites (lo n : ℕ) (v : Bool) : List (ℕ × Bool) :=
  (List.range' lo n).map (fun i => (i, v))

/-- `SoundMonitor::updateLEDs` / `BotLEDController::updateBotLEDs` with the
actor's pin map as a parameter, returning the new state and the trace of
`digitalWrite` calls: a no-op when the category is unchanged, otherwise
turn off every pin from `pin(SILENT)` through `pin(VERY_LOUD)`, then turn
on every pin from `pin(SILENT)` through `pin(newCategory)`, then store the
new category. -/
def updateLEDsGen (pinOf : SoundCategory → ℕ) (s : IndicatorState)
    (newCategory : SoundCategory) : IndicatorState × List (ℕ × Bool) :=
  if newCategory ≠ s.currentCategory then
    let offs := rangeWrites (pinOf .Silent)
      (pinOf .VeryLoud + 1 - pinOf .Silent) false
    let ons := rangeWrites (pinOf .Silent)
      (pinOf newCategory + 1 - pinOf .Silent) true
    ({ currentCategory := newCategory,
       lit := applyWrites (applyWrites s.lit offs) ons }, offs ++ ons)
  else (s, [])

/-- A sequence of category transitions applied to one actor's indicator. -/
def applyCategories (pinOf : SoundCategory → ℕ) (s : IndicatorState)
    (l : List SoundCategory) : IndicatorState :=
  l.foldl (fun st c => (updateLEDsGen pinOf st c).1) s

/-- The human actor's indicator after `SoundMonitor::begin`: all pins
off, then `digitalWrite(getCategoryLEDPin(Silent), HIGH)`. -/
def userInitState : IndicatorState :=
  { currentCategory := .Silent,
    lit := Function.update (fun _ => false) (userLEDPin .Silent) true }

/-- The opponent's indicator after `BotLEDController::begin`: every bot
pin is written LOW and `currentBotCategory` stays `Silent` — no pin is
turned on. -/
def botInitState : IndicatorState :=
  { currentCategory := .Silent, lit := fun _ => false }

/-- The bar-graph invariant for an actor whose pins are `base`..`base+4`:
a pin in the range is lit exactly when it is at most the pin of the
current category. -/
def barGraphInv (base : ℕ) (s : IndicatorState) : Prop :=
  ∀ i : ℕ, base ≤ i → i ≤ base + 4 →
    (s.lit i = true ↔ i ≤ base + categoryIndex s.currentCategory)

theorem applyWrites_range (v : Bool) :
    ∀ (n lo : ℕ) (lit : ℕ → Bool) (i : ℕ),
      applyWrites lit (rangeWrites lo n v) i
        = if lo ≤ i ∧ i < lo + n then v else lit i := by
  intro n
  induction n with
  | zero =>
    intro lo lit i
    rw [if_neg (by omega)]
    rfl
  | succ n ih =>
    intro lo lit i
    have hr : rangeWrites lo (n + 1) v
        = (lo, v) :: rangeWrites (lo + 1) n v := by
      unfold rangeWrites
      rw [List.range'_succ]
      rfl
    rw [hr]
    show applyWrites (Function.update lit lo v) (rangeWrites (lo + 1) n v) i
      = if lo ≤ i ∧ i < lo + (n + 1) then v else lit i
    rw [ih (lo + 1) (Function.update lit lo v) i, Function.update_apply]
    by_cases h1 : lo + 1 ≤ i ∧ i < lo + 1 + n
    · rw [if_pos h1, if_pos (by omega)]
    · rw [if_neg h1]
      by_cases h2 : i = lo
      · rw [if_pos h2, if_pos (by omega)]
      · rw [if_neg h2, if_neg (by omega)]

theorem categoryIndex_le (c : SoundCategory) : categoryIndex c ≤ 4 := by
  cases c <;> decide

theorem updateLEDsGen_noop (pinOf : SoundCategory → ℕ) (s : IndicatorState)
    (c : SoundCategory) (h : c = s.currentCategory) :
    updateLEDsGen pinOf s c = (s, []) := by
  unfold updateLEDsGen
  rw [if_neg (by simp [h])]

theorem updateLEDsGen_change (base : ℕ) (pinOf : SoundCategory → ℕ)
    (hpin : ∀ c, pinOf c = base + categoryIndex c) (s : IndicatorState)
    (c : SoundCategory) (h : c ≠ s.currentCategory) :
    (updateLEDsGen pinOf s c).1.currentCategory = c
    ∧ ∀ i : ℕ, base ≤ i → i ≤ base + 4 →
        ((updateLEDsGen pinOf s c).1.lit i = true
          ↔ i ≤ base + categoryIndex c) := by
  unfold updateLEDsGen
  rw [if_pos h]
  refine ⟨rfl, fun i h1 h2 => ?_⟩
  show applyWrites
      (applyWrites s.lit
        (rangeWrites (pinOf .Silent) (pinOf .VeryLoud + 1 - pinOf .Silent)
          false))
      (rangeWrites (pinOf .Silent) (pinOf c + 1 - pinOf .Silent) true) i
      = true ↔ i ≤ base + categoryIndex c
  have hc : categoryIndex c ≤ 4 := categoryIndex_le c
  rw [applyWrites_range, applyWrites_range, hpin, hpin, hpin]
  show (if base + categoryIndex SoundCategory.Silent ≤ i
      ∧ i < base + categoryIndex SoundCategory.Silent
          + (base + categoryIndex c + 1
              - (base + categoryIndex SoundCategory.Silent)) then true
    else if base + categoryIndex SoundCategory.Silent ≤ i
      ∧ i < base + categoryIndex SoundCategory.Silent
          + (base + categoryIndex SoundCategory.VeryLoud + 1
              - (base + categoryIndex SoundCategory.Silent)) then false
    else s.lit i) = true ↔ i ≤ base + categoryIndex c
  have h0 : categoryIndex SoundCategory.Silent = 0 := rfl
  have h4 : categoryIndex SoundCategory.VeryLoud = 4 := rfl
  rw [h0, h4]
  by_cases hin : base + 0 ≤ i ∧ i < base + 0 + (base + categoryIndex c + 1 - (base + 0))
  · rw [if_pos hin]
    simp only [true_iff]
    omega
  · rw [if_neg hin, if_pos (by omega)]
    simp only [Bool.false_eq_true, false_iff]
    omega

theorem barGraphInv_step (base : ℕ) (pinOf : SoundCategory → ℕ)
    (hpin : ∀ c, pinOf c = base + categoryIndex c) (s : IndicatorState)
    (c : SoundCategory) (hs : barGraphInv base s) :
    barGraphInv base (updateLEDsGen pinOf s c).1 := by
  by_cases h : c = s.currentCategory
  · rw [updateLEDsGen_noop pinOf s c h]
    exact hs
  · intro i h1 h2
    rw [(updateLEDsGen_change base pinOf hpin s c h).1]
    exact (updateLEDsGen_change base pinOf hpin s c h).2 i h1 h2

theorem barGraphInv_seq (base : ℕ) (pinOf : SoundCategory → ℕ)
    (hpin : ∀ c, pinOf c = base + categoryIndex c) :
    ∀ (l : List SoundCategory) (s : IndicatorState), barGraphInv base s →
      barGraphInv base (applyCategories pinOf s l) := by
  intro l
  induction l with
  | nil => exact fun s hs => hs
  | cons c l ih =>
    intro s hs
    exact ih (updateLEDsGen pinOf s c).1 (barGraphInv_step base pinOf hpin s c hs)

theorem userInit_barGraph : barGraphInv 7 userInitState := by
  intro i h1 h2
  show Function.update (fun _ => false) (userLEDPin .Silent) true i = true
    ↔ i ≤ 7 + categoryIndex SoundCategory.Silent
  rw [Function.update_apply]
  have hp : userLEDPin SoundCategory.Silent = 7 := rfl
  rw [hp]
  by_cases h : i = 7
  · rw [if_pos h]
    simp [h, categoryIndex]
  · rw [if_neg h]
    simp only [Bool.false_eq_true, false_iff, categoryIndex]
    omega

/-- C2 counterexample: the opponent actor starts with every output dark
while its stored category is Silent, and a transition drawing Silent again
is a no-op, so after the update sequence [Silent] the illuminated set is
empty rather than the prefix through the Silent output. -/
theorem C2_bar_graph_counterexample :
    updateLEDsGen botLEDPin botInitState SoundCategory.Silent
      = (botInitState, [])
    ∧ ¬ barGraphInv 2
        (applyCategories botLEDPin botInitState [SoundCategory.Silent]) := by
  constructor
  · exact updateLEDsGen_noop botLEDPin botInitState SoundCategory.Silent rfl
  · intro h
    have h2 := h 2 (le_refl 2) (by omega)
    rw [show applyCategories botLEDPin botInitState [SoundCategory.Silent]
        = botInitState from
      congrArg Prod.fst
        (updateLEDsGen_noop botLEDPin botInitState SoundCategory.Silent rfl)]
      at h2
    have : (false = true) ↔ (2 ≤ 2 + categoryIndex SoundCategory.Silent) := h2
    simp [categoryIndex] at this

/-- C2 (amended): an update with an unchanged category performs no output
writes and leaves the state unchanged; an update that changes the category
establishes the bar-graph invariant outright; the invariant is preserved by
every sequence of updates, and in particular holds after every sequence of
updates of the human actor, whose post-initialization state satisfies it.
(The opponent actor's post-initialization state does not satisfy it: all
its outputs start dark with stored category Silent, see the
counterexample.) -/
theorem C2_bar_graph_invariant_amended :
    (∀ (pinOf : SoundCategory → ℕ) (s : IndicatorState) (c : SoundCategory),
      c = s.currentCategory → updateLEDsGen pinOf s c = (s, []))
    ∧ (∀ (base : ℕ) (pinOf : SoundCategory → ℕ),
        (∀ c, pinOf c = base + categoryIndex c) →
        ∀ (s : IndicatorState) (c : SoundCategory), c ≠ s.currentCategory →
          barGraphInv base (updateLEDsGen pinOf s c).1)
    ∧ (∀ (base : ℕ) (pinOf : SoundCategory → ℕ),
        (∀ c, pinOf c = base + categoryIndex c) →
        ∀ (l : List SoundCategory) (s : IndicatorState), barGraphInv base s →
          barGraphInv base (applyCategories pinOf s l))
    ∧ ∀ l : List SoundCategory,
        barGraphInv 7 (applyCategories userLEDPin userInitState l) := by
  refine ⟨updateLEDsGen_noop, ?_, barGraphInv_seq, ?_⟩
  · intro base pinOf hpin s c h i h1 h2
    have hch := updateLEDsGen_change base pinOf hpin s c h
    rw [hch.1]
    exact hch.2 i h1 h2
  · intro l
    exact barGraphInv_seq 7 userLEDPin userLEDPin_base l userInitState
      userInit_barGraph

/-- Witness for C2 (amended): a no-op update of the human actor and the
invariant after the concrete transition sequence [Loud]. -/
theorem C2_bar_graph_invariant_amended_witness :
    updateLEDsGen userLEDPin userInitState SoundCategory.Silent
      = (userInitState, [])
    ∧ barGraphInv 7 (applyCategories userLEDPin userInitState
        [SoundCategory.Loud]) :=
  ⟨C2_bar_graph_invariant_amended.1 userLEDPin userInitState
      SoundCategory.Silent rfl,
   C2_bar_graph_invariant_amended.2.2.2 [SoundCategory.Loud]⟩

/-- Arduino `random(lo, hi)`: `lo + random() % (hi - lo)` with the upper
bound exclusive; the raw `random()` draw is the oracle argument `r`. -/
def arduinoRandom (lo hi r : ℕ) : ℕ :=
  lo + r % (hi - lo)

/-- `static_cast<SoundCategory>(randomValue)` for `randomValue` in 0..4. -/
def categoryOfValue : ℕ → SoundCategory
  | 0 => .Silent
  | 1 => .Quiet
  | 2 => .Moderate
  | 3 => .Loud
  | _ => .VeryLoud

/-- `BotLEDController::getRandomCategory`: `random(0, 5)` cast to a
category. -/
def getRandomCategory (r : ℕ) : SoundCategory :=
  categoryOfValue (arduinoRandom 0 5 r)

/-- Timer state of `BotLEDController` (its LED state is the
`IndicatorState` of the opponent actor, updated through
`updateBotLEDs`, which touches nothing modeled here). -/
structure BotState where
  currentBotCategory : SoundCategory
  lastChangeTime : ℕ
  changeInterval : ℕ
deriving DecidableEq, Repr

/-- `BotLEDController::update`: when `currentTime - lastChangeTime >=
changeInterval`, draw a new category, reset the timer to `currentTime`,
draw a new interval with `random(2000, 3000)`, and return the (new)
current category; otherwise change nothing and return the stored
category. -/
def botUpdate (s : BotState) (currentTime : ℕ) (rCat rInt : ℕ) :
    BotState × SoundCategory :=
  if wrapSub currentTime s.lastChangeTime ≥ s.changeInterval then
    let newCategory := getRandomCategory rCat
    ({ currentBotCategory := newCategory,
       lastChangeTime := currentTime,
       changeInterval := arduinoRandom 2000 3000 rInt }, newCategory)
  else (s, s.currentBotCategory)

/-- C8: with in-range non-decreasing timestamps, the opponent changes
state only when `now - lastChangeTime >= changeInterval`; before the
deadline the state and the returned category are unchanged; at a
transition the new category is the oracle draw over the five categories
(every category, including the current one, is drawable),
`lastChangeTime` is reset to `now`, and the new `changeInterval` is
`2000 + r % 1000`, which lies in [2000 ms, 3000 ms]. -/
theorem C8_opponent_random_walk :
    (∀ (s : BotState) (now rCat rInt : ℕ),
      s.lastChangeTime ≤ now → now < ULONG_MOD →
      now - s.lastChangeTime < s.changeInterval →
      botUpdate s now rCat rInt = (s, s.currentBotCategory))
    ∧ (∀ (s : BotState) (now rCat rInt : ℕ),
        s.lastChangeTime ≤ now → now < ULONG_MOD →
        s.changeInterval ≤ now - s.lastChangeTime →
        (botUpdate s now rCat rInt).1.currentBotCategory
            = getRandomCategory rCat
        ∧ (botUpdate s now rCat rInt).2 = getRandomCategory rCat
        ∧ (botUpdate s now rCat rInt).1.lastChangeTime = now
        ∧ (botUpdate s now rCat rInt).1.changeInterval = 2000 + rInt % 1000
        ∧ 2000 ≤ (botUpdate s now rCat rInt).1.changeInterval
        ∧ (botUpdate s now rCat rInt).1.changeInterval ≤ 3000)
    ∧ ∀ c : SoundCategory, ∃ r : ℕ, getRandomCategory r = c := by
  refine ⟨?_, ?_, ?_⟩
  · intro s now rCat rInt h1 h2 h3
    unfold botUpdate
    rw [wrapSub_eq now s.lastChangeTime h1 h2, if_neg (by omega)]
  · intro s now rCat rInt h1 h2 h3
    unfold botUpdate
    rw [wrapSub_eq now s.lastChangeTime h1 h2, if_pos (by omega)]
    have hm : rInt % 1000 < 1000 := Nat.mod_lt rInt (by norm_num)
    refine ⟨rfl, rfl, rfl, rfl, ?_, ?_⟩
    · show 2000 ≤ 2000 + rInt % (3000 - 2000)
      omega
    · show 2000 + rInt % (3000 - 2000) ≤ 3000
      omega
  · intro c
    cases c with
    | Silent => exact ⟨0, rfl⟩
    | Quiet => exact ⟨1, rfl⟩
    | Moderate => exact ⟨2, rfl⟩
    | Loud => exact ⟨3, rfl⟩
    | VeryLoud => exact ⟨4, rfl⟩

/-- Witness for C8: before the deadline nothing changes (concrete state),
and a concrete transition at the deadline. -/
theorem C8_opponent_random_walk_witness :
    botUpdate ⟨SoundCategory.Silent, 0, 2500⟩ 100 3 7
      = (⟨SoundCategory.Silent, 0, 2500⟩, SoundCategory.Silent)
    ∧ (botUpdate ⟨SoundCategory.Silent, 0, 2500⟩ 2600 3 7).1.lastChangeTime
      = 2600 :=
  ⟨C8_opponent_random_walk.1 ⟨SoundCategory.Silent, 0, 2500⟩ 100 3 7
      (by decide) (by decide) (by decide),
   (C8_opponent_random_walk.2.1 ⟨SoundCategory.Silent, 0, 2500⟩ 2600 3 7
      (by decide) (by decide) (by decide)).2.2.1⟩

end DecibelDuel
